import Mathlib

/-!
Verification of the AliceVision camera-model excerpt
(`aliceVision/camera/IntrinsicBase.hpp`, `aliceVision/feature/PointFeature.hpp`)
against its natural-language specification.

Machine doubles are modelled as real numbers; Eigen vectors as records of
reals; the polymorphic `IntrinsicBase` interface as a record whose virtual
members are function-valued fields.
-/

namespace AliceVision

/-- Eigen `Vec2` (a pair of doubles), modelled as a pair of reals. -/
structure Vec2 where
  x : ℝ
  y : ℝ

/-- Eigen `Vec3` (a triple of doubles), modelled as a triple of reals. -/
structure Vec3 where
  x : ℝ
  y : ℝ
  z : ℝ

noncomputable instance : Sub Vec2 := ⟨fun a b => ⟨a.x - b.x, a.y - b.y⟩⟩

noncomputable instance : Neg Vec3 := ⟨fun a => ⟨-a.x, -a.y, -a.z⟩⟩

/-- Eigen dot product of two 3-vectors (`ray1.dot(ray2)`). -/
noncomputable def dot3 (a b : Vec3) : ℝ := a.x * b.x + a.y * b.y + a.z * b.z

/-- Eigen Euclidean norm of a 3-vector (`ray.norm()`). -/
noncomputable def norm3 (a : Vec3) : ℝ := Real.sqrt (a.x ^ 2 + a.y ^ 2 + a.z ^ 2)

/-- Modelled from the spec: `geometry::Pose3` (from `geometry/Pose3.hpp`,
outside the excerpt) placing a camera in world space; the excerpt uses a pose
only through its action on a 3D point (`pose(pt3D)`), so a pose is kept
abstract as that action. -/
abbrev Pose3 := Vec3 → Vec3

/-- `IntrinsicBase` (IntrinsicBase.hpp, lines 22-186): the shared data fields
together with the virtual members the excerpted non-virtual code dispatches
to (`getType`, `getParams`, `cam2ima`, `add_disto`, `have_disto`).  Virtual
members are constant per object, so they are function- or value-typed
fields. -/
structure IntrinsicBase where
  _w : ℕ
  _h : ℕ
  _initialFocalLengthPix : ℝ
  _serialNumber : String
  getType : ℕ
  getParams : List ℝ
  cam2ima : Vec2 → Vec2
  add_disto : Vec2 → Vec2
  have_disto : Bool

/-- `IntrinsicBase::isValid` (line 36): `_w != 0 && _h != 0`. -/
def IntrinsicBase.isValid (a : IntrinsicBase) : Prop := a._w ≠ 0 ∧ a._h ≠ 0

/-- `IntrinsicBase::operator==` (lines 55-61): compares `_w`, `_h`,
`_serialNumber`, `getType()` and `getParams()`. -/
def IntrinsicBase.eq (a b : IntrinsicBase) : Prop :=
  a._w = b._w ∧ a._h = b._h ∧ a._serialNumber = b._serialNumber ∧
  a.getType = b.getType ∧ a.getParams = b.getParams

/-- `IntrinsicBase::project` (lines 64-74): apply the pose, then disto (if
any and requested) and intrinsics. -/
noncomputable def IntrinsicBase.project (a : IntrinsicBase) (pose : Pose3)
    (pt3D : Vec3) (applyDistortion : Bool) : Vec2 :=
  let X := pose pt3D
  if applyDistortion && a.have_disto then
    a.cam2ima (a.add_disto ⟨X.x / X.z, X.y / X.z⟩)
  else
    a.cam2ima ⟨X.x / X.z, X.y / X.z⟩

/-- `IntrinsicBase::residual` (lines 77-81): `x - project(pose, X)`, where
`project` is called with its defaulted `applyDistortion = true`. -/
noncomputable def IntrinsicBase.residual (a : IntrinsicBase) (pose : Pose3)
    (X : Vec3) (x : Vec2) : Vec2 :=
  x - a.project pose X true

/-- `IntrinsicBase::residuals` (lines 83-93): asserts matching column
counts, then fills column `i` with `residual(pose, X.col(i), x.col(i))`.
The matrices of column vectors are modelled as lists and the assertion as
an `Option` guard: `none` means the precondition check fired and no element
was computed. -/
noncomputable def IntrinsicBase.residuals (a : IntrinsicBase) (pose : Pose3)
    (X : List Vec3) (x : List Vec2) : Option (List Vec2) :=
  if X.length = x.length then
    some (List.zipWith (fun Xi xi => a.residual pose Xi xi) X x)
  else
    none

/-- Modelled from the spec: `clamp` from `numeric/numeric.hpp` (outside the
excerpt) restricts a value to the interval `[lo, hi]`. -/
noncomputable def clamp (v lo hi : ℝ) : ℝ := max lo (min v hi)

/-- Modelled from the spec: `radianToDegree` from `numeric/numeric.hpp`
(outside the excerpt) converts radians to degrees. -/
noncomputable def radianToDegree (r : ℝ) : ℝ := r * 180 / Real.pi

/-- The argument handed to `acos` inside `AngleBetweenRays` (line 193):
`clamp(dotAngle/mag, -1.0 + 1.e-8, 1.0 - 1.e-8)`. -/
noncomputable def acosArgument (ray1 ray2 : Vec3) : ℝ :=
  clamp (dot3 ray1 ray2 / (norm3 ray1 * norm3 ray2)) (-1 + 1e-8) (1 - 1e-8)

/-- `AngleBetweenRays` (lines 189-194): degree angle between two bearing
rays, with the clamped inverse cosine. -/
noncomputable def AngleBetweenRays (ray1 ray2 : Vec3) : ℝ :=
  radianToDegree (Real.arccos (acosArgument ray1 ray2))

/-- Modelled from the spec: `stl::hash_combine` (from `stl/hash.hpp`,
outside the excerpt), the boost-style combiner
`seed ^= hash + 0x9e3779b9 + (seed << 6) + (seed >> 2)` on `size_t`,
modelled on naturals modulo `2^64`. -/
def hash_combine (seed h : ℕ) : ℕ :=
  (seed ^^^ ((h + 0x9e3779b9 + seed * 2 ^ 6 + seed / 2 ^ 2) % 2 ^ 64)) % 2 ^ 64

/-- Modelled from the spec: the `std::hash` instantiations used by
`hashValue` (implementation-defined deterministic hashers for the field
types), kept abstract as arbitrary functions. -/
structure StdHashers where
  hashInt : ℕ → ℕ
  hashUInt : ℕ → ℕ
  hashString : String → ℕ
  hashDouble : ℝ → ℕ

/-- `IntrinsicBase::hashValue` (lines 174-185): combine, starting from seed
`0`, the type tag, `_w`, `_h`, `_serialNumber`, then each entry of
`getParams()` in order. -/
def IntrinsicBase.hashValue (hs : StdHashers) (a : IntrinsicBase) : ℕ :=
  let seed0 := hash_combine 0 (hs.hashInt a.getType)
  let seed1 := hash_combine seed0 (hs.hashUInt a._w)
  let seed2 := hash_combine seed1 (hs.hashUInt a._h)
  let seed3 := hash_combine seed2 (hs.hashString a._serialNumber)
  a.getParams.foldl (fun s p => hash_combine s (hs.hashDouble p)) seed3

/-- Modelled from the spec: a cereal input archive (cereal is an external
library) restricted to the named fields the base-class `load` reads; a
field is `none` when absent from the archive, and reading an absent field
throws `cereal::Exception`. -/
structure ArchiveData where
  width : Option ℕ
  height : Option ℕ
  serialNumber : Option String
  initialFocalLengthPix : Option ℝ

/-- `IntrinsicBase::load` (lines 149-171): read `width` and `height`
(an absence there propagates as a failure), then read `serialNumber` and
`initialFocalLengthPix` each inside a `try`/`catch` that defaults the field
to `""` resp. `-1` when the archive lacks it. -/
noncomputable def IntrinsicBase.load (ar : ArchiveData) (a : IntrinsicBase) :
    Option IntrinsicBase :=
  match ar.width, ar.height with
  | some w, some h =>
      some { a with
        _w := w
        _h := h
        _serialNumber := (ar.serialNumber).getD ("")
        _initialFocalLengthPix := (ar.initialFocalLengthPix).getD (-1) }
  | _, _ => none

/-- `PointFeature` (PointFeature.hpp, lines 22-47): a 2D float coordinate,
floats modelled as reals. -/
structure PointFeature where
  x : ℝ
  y : ℝ

/-- The two distinct failures `loadFeatsFromFile` throws: the file cannot
be opened, or the stream is bad after the reads. -/
inductive FeatsLoadError where
  | cantOpen
  | incorrect
deriving DecidableEq

/-- Modelled from the spec: the observable outcome of `std::ifstream` reads
on an openable file (the stream is an external facility): the features the
`istream_iterator` loop extracts before input fails, and whether the stream
is left in the `bad` state afterwards. -/
structure FeatsFileStream where
  feats : List PointFeature
  bad : Bool

/-- `loadFeatsFromFile` (PointFeature.hpp, lines 139-158) with the caller's
vector passed explicitly: clear `vec_feat`, open the file (`none` = the
open fails) and throw `cantOpen` if that fails, copy the stream's features
into the vector, throw `incorrect` if the stream is bad, else return.  The
result pairs the call's outcome with the final contents of the caller's
vector. -/
def loadFeatsFromFile (file : Option FeatsFileStream)
    (vec_feat : List PointFeature) :
    Except FeatsLoadError Unit × List PointFeature :=
  let _cleared : List PointFeature := []
  match file with
  | none => (.error .cantOpen, _cleared)
  | some s =>
      if s.bad then (.error .incorrect, _cleared ++ s.feats)
      else (.ok (), _cleared ++ s.feats)

/-- Following the spec's words for `project` (§4.2): transform the 3D point
into the camera's local frame via the pose, perspective-divide the first
two components by the third (the depth) to obtain a normalized-plane point,
apply distortion when the caller requested it and the model supports it,
then map to pixel space via `cam2ima`.  Stated separately from
`IntrinsicBase.project` so the code can be proved to refine it. -/
noncomputable def projectSpec (a : IntrinsicBase) (pose : Pose3)
    (pt3D : Vec3) (applyDistortion : Bool) : Vec2 :=
  let camFrame := pose pt3D
  let normalized : Vec2 := ⟨camFrame.x / camFrame.z, camFrame.y / camFrame.z⟩
  let maybeDistorted :=
    if applyDistortion && a.have_disto then a.add_disto normalized else normalized
  a.cam2ima maybeDistorted

/-- The concrete pinhole model of the spec's end-to-end scenario (§8):
1920x1080, focal length 1000px, principal point (960, 540), no
distortion. -/
noncomputable def pinholeExample : IntrinsicBase where
  _w := 1920
  _h := 1080
  _initialFocalLengthPix := -1
  _serialNumber := ""
  getType := 1
  getParams := [1000, 960, 540]
  cam2ima := fun p => ⟨1000 * p.x + 960, 1000 * p.y + 540⟩
  add_disto := fun p => p
  have_disto := false

/-- A variant of `pinholeExample` that differs only in the field that does
not take part in `operator==`. -/
noncomputable def pinholeExampleRefocused : IntrinsicBase :=
  { pinholeExample with _initialFocalLengthPix := 5 }

/-- A concrete choice of `std::hash` instantiations, for evaluating
`hashValue` at concrete models. -/
def trivialHashers : StdHashers where
  hashInt := fun n => n
  hashUInt := fun n => n
  hashString := fun s => s.length
  hashDouble := fun _ => 0

/-! ## Helper lemmas -/

theorem sq_sum_pos_of_ne_zero (r : Vec3) (h : r ≠ ⟨0, 0, 0⟩) :
    0 < r.x ^ 2 + r.y ^ 2 + r.z ^ 2 := by
  rcases r with ⟨x, y, z⟩
  dsimp only
  by_contra hle
  push_neg at hle
  have hx : x = 0 := by nlinarith [sq_nonneg x, sq_nonneg y, sq_nonneg z]
  have hy : y = 0 := by nlinarith [sq_nonneg x, sq_nonneg y, sq_nonneg z]
  have hz : z = 0 := by nlinarith [sq_nonneg x, sq_nonneg y, sq_nonneg z]
  exact h (by simp [hx, hy, hz])

theorem neg_vec3_x (r : Vec3) : (-r).x = -r.x := rfl

theorem neg_vec3_y (r : Vec3) : (-r).y = -r.y := rfl

theorem neg_vec3_z (r : Vec3) : (-r).z = -r.z := rfl

theorem zipWith_getD {α β γ : Type} (f : α → β → γ) (da : α) (db : β)
    (dc : γ) :
    ∀ (as : List α) (bs : List β) (i : ℕ), as.length = bs.length →
      i < bs.length →
      (List.zipWith f as bs).getD i dc = f (as.getD i da) (bs.getD i db)
  | [], [], i, _, hi => by simp at hi
  | [], _ :: _, _, h, _ => by simp at h
  | _ :: _, [], _, _, hi => by simp at hi
  | a :: as, b :: bs, 0, _, _ => by simp
  | a :: as, b :: bs, i + 1, h, hi => by
      simp only [List.zipWith_cons_cons, List.getD_cons_succ]
      exact zipWith_getD f da db dc as bs i (by simpa using h) (by simpa using hi)

/-! ## Claims -/

/-- C1: `project(pose, pt3D, applyDistortion)` maps `pt3D` through the
pose, divides the first two components of the result by the third to get a
normalized-plane point, then applies `add_disto` before `cam2ima` exactly
when `applyDistortion` is true and the model has `have_disto()`, and
otherwise applies `cam2ima` directly — i.e. the code refines the spec's
composition `projectSpec`, for any point with non-zero camera-frame
depth. -/
theorem project_follows_spec (a : IntrinsicBase) (pose : Pose3) (pt3D : Vec3)
    (applyDistortion : Bool) (hz : (pose pt3D).z ≠ 0) :
    a.project pose pt3D applyDistortion = projectSpec a pose pt3D applyDistortion := by
  unfold IntrinsicBase.project projectSpec
  cases hb : applyDistortion && a.have_disto <;> simp [hb]

theorem project_follows_spec_witness :
    ((fun p => p : Pose3) ⟨0, 0, 10⟩).z ≠ 0 ∧
    pinholeExample.project (fun p => p) ⟨0, 0, 10⟩ true =
      projectSpec pinholeExample (fun p => p) ⟨0, 0, 10⟩ true :=
  ⟨by norm_num, project_follows_spec pinholeExample (fun p => p) ⟨0, 0, 10⟩ true (by norm_num)⟩

/-- C2: `residual(pose, X, x)` is `x - project(pose, X)` (observed minus
projected, distortion applied through `project`'s defaulted flag), and for
column-matched inputs every entry `i` of `residuals(pose, X, x)` is
`residual(pose, X.col(i), x.col(i))`. -/
theorem residual_residuals_spec (a : IntrinsicBase) (pose : Pose3) :
    (∀ (X : Vec3) (x : Vec2), a.residual pose X x = x - a.project pose X true) ∧
    ∀ (X : List Vec3) (xs : List Vec2), X.length = xs.length →
      ∃ rs, a.residuals pose X xs = some rs ∧ rs.length = xs.length ∧
        ∀ i, i < xs.length →
          rs.getD i ⟨0, 0⟩ =
            a.residual pose (X.getD i ⟨0, 0, 0⟩) (xs.getD i ⟨0, 0⟩) := by
  refine ⟨fun X x => rfl, fun X xs h => ?_⟩
  refine ⟨List.zipWith (fun Xi xi => a.residual pose Xi xi) X xs, ?_, ?_, ?_⟩
  · unfold IntrinsicBase.residuals
    rw [if_pos h]
  · rw [List.length_zipWith, h, min_self]
  · intro i hi
    exact zipWith_getD _ _ _ _ X xs i h hi

theorem residual_residuals_spec_witness :
    ([(⟨0, 0, 10⟩ : Vec3)].length = [(⟨960, 540⟩ : Vec2)].length) ∧
    (∃ rs, pinholeExample.residuals (fun p => p) [⟨0, 0, 10⟩] [⟨960, 540⟩] = some rs ∧
      rs.length = [(⟨960, 540⟩ : Vec2)].length ∧
      ∀ i, i < [(⟨960, 540⟩ : Vec2)].length →
        rs.getD i ⟨0, 0⟩ =
          pinholeExample.residual (fun p => p)
            ([(⟨0, 0, 10⟩ : Vec3)].getD i ⟨0, 0, 0⟩)
            ([(⟨960, 540⟩ : Vec2)].getD i ⟨0, 0⟩)) :=
  ⟨rfl, (residual_residuals_spec pinholeExample (fun p => p)).2 [⟨0, 0, 10⟩] [⟨960, 540⟩] rfl⟩

/-- C3: `residuals(pose, X, x)` on inputs with differing column counts
fails at the precondition check (modelled as `none`) and computes no
per-element residual. -/
theorem residuals_mismatch_fails (a : IntrinsicBase) (pose : Pose3)
    (X : List Vec3) (x : List Vec2) (h : X.length ≠ x.length) :
    a.residuals pose X x = none := by
  unfold IntrinsicBase.residuals
  rw [if_neg h]

theorem residuals_mismatch_fails_witness :
    (([] : List Vec3).length ≠ [(⟨0, 0⟩ : Vec2)].length) ∧
    pinholeExample.residuals (fun p => p) [] [⟨0, 0⟩] = none :=
  ⟨by simp, residuals_mismatch_fails pinholeExample (fun p => p) [] [⟨0, 0⟩] (by simp)⟩

/-- C4: for non-zero rays, the value handed to `acos` inside
`AngleBetweenRays` lies in the clamp interval `[-1 + 1e-8, 1 - 1e-8]`, and
in particular inside the `acos` domain `[-1, 1]`, so the inverse cosine
never sees a domain error — including when the exact cosine is `±1`. -/
theorem acos_argument_in_domain (ray1 ray2 : Vec3)
    (h1 : ray1 ≠ ⟨0, 0, 0⟩) (h2 : ray2 ≠ ⟨0, 0, 0⟩) :
    (-1 + 1e-8 ≤ acosArgument ray1 ray2 ∧ acosArgument ray1 ray2 ≤ 1 - 1e-8) ∧
    (-1 ≤ acosArgument ray1 ray2 ∧ acosArgument ray1 ray2 ≤ 1) := by
  have hlo : (-1 + 1e-8 : ℝ) ≤ acosArgument ray1 ray2 := le_max_left _ _
  have hhi : acosArgument ray1 ray2 ≤ 1 - 1e-8 :=
    max_le (by norm_num) (min_le_right _ _)
  exact ⟨⟨hlo, hhi⟩, by linarith [hlo, hhi, (by norm_num : (0:ℝ) < 1e-8)],
    by linarith [hhi, (by norm_num : (0:ℝ) < 1e-8)]⟩

theorem acos_argument_in_domain_witness :
    ((⟨1, 0, 0⟩ : Vec3) ≠ ⟨0, 0, 0⟩) ∧ ((⟨0, 1, 0⟩ : Vec3) ≠ ⟨0, 0, 0⟩) ∧
    ((-1 + 1e-8 ≤ acosArgument ⟨1, 0, 0⟩ ⟨0, 1, 0⟩ ∧
      acosArgument ⟨1, 0, 0⟩ ⟨0, 1, 0⟩ ≤ 1 - 1e-8) ∧
     (-1 ≤ acosArgument ⟨1, 0, 0⟩ ⟨0, 1, 0⟩ ∧
      acosArgument ⟨1, 0, 0⟩ ⟨0, 1, 0⟩ ≤ 1)) :=
  ⟨by simp, by simp,
    acos_argument_in_domain ⟨1, 0, 0⟩ ⟨0, 1, 0⟩ (by simp) (by simp)⟩

theorem acosArgument_self (r : Vec3) (h : r ≠ ⟨0, 0, 0⟩) :
    acosArgument r r = 1 - 1e-8 := by
  have hs := sq_sum_pos_of_ne_zero r h
  unfold acosArgument clamp dot3 norm3
  rw [Real.mul_self_sqrt (by positivity)]
  have hsq : r.x * r.x + r.y * r.y + r.z * r.z = r.x ^ 2 + r.y ^ 2 + r.z ^ 2 := by
    ring
  rw [hsq, div_self (ne_of_gt hs), min_eq_right (by norm_num),
    max_eq_right (by norm_num)]

theorem acosArgument_neg_self (r : Vec3) (h : r ≠ ⟨0, 0, 0⟩) :
    acosArgument r (-r) = -1 + 1e-8 := by
  have hs := sq_sum_pos_of_ne_zero r h
  unfold acosArgument clamp dot3 norm3
  rw [neg_vec3_x, neg_vec3_y, neg_vec3_z]
  have hsq : (-r.x) ^ 2 + (-r.y) ^ 2 + (-r.z) ^ 2 = r.x ^ 2 + r.y ^ 2 + r.z ^ 2 := by
    ring
  rw [hsq, Real.mul_self_sqrt (by positivity)]
  have hdot : r.x * -r.x + r.y * -r.y + r.z * -r.z =
      -(r.x ^ 2 + r.y ^ 2 + r.z ^ 2) := by ring
  rw [hdot, neg_div, div_self (ne_of_gt hs), min_eq_left (by norm_num),
    max_eq_left (by norm_num)]

theorem arccos_clamped_one_le : Real.arccos (1 - 1e-8) ≤ 1 / 2000 := by
  have habs : |(1 / 2000 : ℝ)| ≤ 1 := by
    rw [abs_of_nonneg (by norm_num)]
    norm_num
  have hb := Real.cos_bound habs
  rw [abs_of_nonneg (by norm_num : (0:ℝ) ≤ 1 / 2000)] at hb
  have hb2 := (abs_le.1 hb).2
  norm_num at hb2
  have hcos : Real.cos (1 / 2000) ≤ 1 - 1e-8 := by
    norm_num
    linarith
  have heq : Real.arccos (Real.cos (1 / 2000)) = 1 / 2000 :=
    Real.arccos_cos (by norm_num) (by linarith [Real.pi_gt_three])
  have anti : Real.arccos (1 - 1e-8) ≤ Real.arccos (Real.cos (1 / 2000)) := by
    rw [Real.arccos_eq_pi_div_two_sub_arcsin, Real.arccos_eq_pi_div_two_sub_arcsin]
    have := Real.monotone_arcsin hcos
    linarith
  linarith

theorem arccos_clamped_deg_bounds :
    0 < Real.arccos (1 - 1e-8) * 180 / Real.pi ∧
    Real.arccos (1 - 1e-8) * 180 / Real.pi ≤ 0.03 := by
  have hpos : 0 < Real.arccos (1 - 1e-8) := Real.arccos_pos.2 (by norm_num)
  have hπ3 := Real.pi_gt_three
  constructor
  · exact div_pos (by linarith) Real.pi_pos
  · calc Real.arccos (1 - 1e-8) * 180 / Real.pi
        ≤ (1 / 2000) * 180 / 3 := by
          apply div_le_div₀ (by norm_num)
            (by nlinarith [arccos_clamped_one_le]) (by norm_num) (by linarith)
      _ = 0.03 := by norm_num

/-- C5 counterexample: at the concrete non-zero ray `(1, 0, 0)`,
`AngleBetweenRays(r, r)` is not `0` degrees — the clamp caps the cosine at
`1 - 1e-8`, so the computed angle is strictly positive. -/
theorem angleBetweenRays_self_ne_zero :
    AngleBetweenRays ⟨1, 0, 0⟩ ⟨1, 0, 0⟩ ≠ 0 := by
  unfold AngleBetweenRays radianToDegree
  rw [acosArgument_self ⟨1, 0, 0⟩ (by simp)]
  exact ne_of_gt arccos_clamped_deg_bounds.1

/-- C5 (amended): for every non-zero ray `r`, `AngleBetweenRays(r, r)` is
strictly positive but within 0.03 degrees of 0, and `AngleBetweenRays(r, -r)`
is strictly below but within 0.03 degrees of 180: the clamp to
`[-1 + 1e-8, 1 - 1e-8]` keeps both results from reaching the exact values. -/
theorem angleBetweenRays_self_and_opposite (r : Vec3) (h : r ≠ ⟨0, 0, 0⟩) :
    (0 < AngleBetweenRays r r ∧ AngleBetweenRays r r ≤ 0.03) ∧
    (180 - 0.03 ≤ AngleBetweenRays r (-r) ∧ AngleBetweenRays r (-r) < 180) := by
  have hdb := arccos_clamped_deg_bounds
  have hπ := Real.pi_pos
  constructor
  · unfold AngleBetweenRays radianToDegree
    rw [acosArgument_self r h]
    exact hdb
  · unfold AngleBetweenRays radianToDegree
    rw [acosArgument_neg_self r h]
    have hneg : (-1 + 1e-8 : ℝ) = -(1 - 1e-8) := by ring
    rw [hneg, Real.arccos_neg]
    have hexp : (Real.pi - Real.arccos (1 - 1e-8)) * 180 / Real.pi =
        180 - Real.arccos (1 - 1e-8) * 180 / Real.pi := by
      field_simp
      ring
    rw [hexp]
    constructor
    · linarith [hdb.2]
    · linarith [hdb.1]

theorem angleBetweenRays_self_and_opposite_witness :
    ((⟨1, 0, 0⟩ : Vec3) ≠ ⟨0, 0, 0⟩) ∧
    ((0 < AngleBetweenRays ⟨1, 0, 0⟩ ⟨1, 0, 0⟩ ∧
      AngleBetweenRays ⟨1, 0, 0⟩ ⟨1, 0, 0⟩ ≤ 0.03) ∧
     (180 - 0.03 ≤ AngleBetweenRays ⟨1, 0, 0⟩ (-⟨1, 0, 0⟩) ∧
      AngleBetweenRays ⟨1, 0, 0⟩ (-⟨1, 0, 0⟩) < 180)) :=
  ⟨by simp, angleBetweenRays_self_and_opposite ⟨1, 0, 0⟩ (by simp)⟩

/-- C6: `operator==` holds exactly when widths, heights, serial identities,
type tags and flattened parameter lists agree (element-wise, in order), and
no other field participates: two models that agree on those five but differ
in `_initialFocalLengthPix` — or in any of the behaviour fields — still
compare equal. -/
theorem eq_compares_exactly_five_fields (a b : IntrinsicBase) :
    (a.eq b ↔
      a._w = b._w ∧ a._h = b._h ∧ a._serialNumber = b._serialNumber ∧
      a.getType = b.getType ∧ a.getParams = b.getParams) ∧
    ∀ (f : ℝ) (c d : Vec2 → Vec2) (hd : Bool),
      a.eq { a with _initialFocalLengthPix := f, cam2ima := c,
                    add_disto := d, have_disto := hd } :=
  ⟨Iff.rfl, fun _ _ _ _ => ⟨rfl, rfl, rfl, rfl, rfl⟩⟩

/-- C7: `hashValue` is the fold of `hash_combine`, from seed 0, over
exactly the type tag, width, height, serial identity, then each flattened
parameter in sequence; hence models equal under `operator==` hash equal,
for any (deterministic) choice of the underlying `std::hash` functions. -/
theorem hashValue_order_and_eq_congruence (hs : StdHashers) :
    (∀ a : IntrinsicBase,
      a.hashValue hs =
        ([hs.hashInt a.getType, hs.hashUInt a._w, hs.hashUInt a._h,
          hs.hashString a._serialNumber] ++
            a.getParams.map hs.hashDouble).foldl hash_combine 0) ∧
    ∀ a b : IntrinsicBase, a.eq b → a.hashValue hs = b.hashValue hs := by
  constructor
  · intro a
    rw [List.foldl_append, List.foldl_map, List.foldl_cons, List.foldl_cons,
      List.foldl_cons, List.foldl_cons, List.foldl_nil]
    rfl
  · intro a b hab
    obtain ⟨h1, h2, h3, h4, h5⟩ := hab
    unfold IntrinsicBase.hashValue
    rw [h1, h2, h3, h4, h5]

theorem hashValue_order_and_eq_congruence_witness :
    pinholeExample.eq pinholeExampleRefocused ∧
    pinholeExample.hashValue trivialHashers =
      pinholeExampleRefocused.hashValue trivialHashers :=
  ⟨⟨rfl, rfl, rfl, rfl, rfl⟩,
    (hashValue_order_and_eq_congruence trivialHashers).2 pinholeExample
      pinholeExampleRefocused ⟨rfl, rfl, rfl, rfl, rfl⟩⟩

/-- C8: when the archive carries `width` and `height`, `load` succeeds even
if `serialNumber` or `initialFocalLengthPix` is absent; a missing
`serialNumber` leaves the serial identity `""` and a missing
`initialFocalLengthPix` leaves it `-1`. -/
theorem load_tolerates_missing_legacy_fields (a : IntrinsicBase)
    (ar : ArchiveData) (w h : ℕ)
    (hw : ar.width = some w) (hh : ar.height = some h) :
    ∃ b, IntrinsicBase.load ar a = some b ∧ b._w = w ∧ b._h = h ∧
      (ar.serialNumber = none → b._serialNumber = "") ∧
      (ar.initialFocalLengthPix = none → b._initialFocalLengthPix = -1) := by
  have hload : IntrinsicBase.load ar a = some
      { a with
        _w := w
        _h := h
        _serialNumber := (ar.serialNumber).getD ("")
        _initialFocalLengthPix := (ar.initialFocalLengthPix).getD (-1) } := by
    unfold IntrinsicBase.load
    rw [hw, hh]
  refine ⟨_, hload, rfl, rfl, ?_, ?_⟩
  · intro hsn
    rw [hsn]
    rfl
  · intro hf
    rw [hf]
    rfl

theorem load_tolerates_missing_legacy_fields_witness :
    (ArchiveData.width ⟨some 1920, some 1080, none, none⟩ = some 1920) ∧
    (ArchiveData.height ⟨some 1920, some 1080, none, none⟩ = some 1080) ∧
    ∃ b, IntrinsicBase.load ⟨some 1920, some 1080, none, none⟩ pinholeExample =
        some b ∧ b._w = 1920 ∧ b._h = 1080 ∧
      ((ArchiveData.serialNumber ⟨some 1920, some 1080, none, none⟩ = none →
        b._serialNumber = "") ∧
       (ArchiveData.initialFocalLengthPix ⟨some 1920, some 1080, none, none⟩ = none →
        b._initialFocalLengthPix = -1)) := by
  refine ⟨rfl, rfl, ?_⟩
  obtain ⟨b, h1, h2, h3, h4, h5⟩ :=
    load_tolerates_missing_legacy_fields pinholeExample
      ⟨some 1920, some 1080, none, none⟩ 1920 1080 rfl rfl
  exact ⟨b, h1, h2, h3, h4, h5⟩

/-- C9: `loadFeatsFromFile` throws the "can't open" failure exactly when
the file cannot be opened, throws the distinct "incorrect" (corrupt-data)
failure exactly when the stream is bad after the reads, and in every other
case returns normally with the parsed features in the caller's vector. -/
theorem loadFeats_error_taxonomy (file : Option FeatsFileStream)
    (prior : List PointFeature) :
    ((loadFeatsFromFile file prior).1 = .error .cantOpen ↔ file = none) ∧
    ((loadFeatsFromFile file prior).1 = .error .incorrect ↔
      ∃ s, file = some s ∧ s.bad = true) ∧
    ∀ s, file = some s → s.bad = false →
      loadFeatsFromFile file prior = (.ok (), s.feats) := by
  rcases file with _ | s
  · refine ⟨by simp [loadFeatsFromFile], by simp [loadFeatsFromFile], ?_⟩
    intro s hs
    simp at hs
  · rcases hb : s.bad with _ | _
    · refine ⟨by simp [loadFeatsFromFile, hb], ?_, ?_⟩
      · simp only [loadFeatsFromFile, hb]
        constructor
        · intro hcontra
          simp at hcontra
        · rintro ⟨t, ht, hbad⟩
          rw [Option.some_inj] at ht
          rw [← ht] at hbad
          rw [hb] at hbad
          exact absurd hbad (by simp)
      · intro t ht _
        rw [Option.some_inj] at ht
        simp [loadFeatsFromFile, hb, ← ht]
    · refine ⟨by simp [loadFeatsFromFile, hb], ?_, ?_⟩
      · simp only [loadFeatsFromFile, hb]
        constructor
        · intro _
          exact ⟨s, rfl, hb⟩
        · intro _
          simp
      · intro t ht hbad
        rw [Option.some_inj] at ht
        rw [← ht] at hbad
        rw [hb] at hbad
        exact absurd hbad (by simp)

theorem loadFeats_error_taxonomy_witness :
    ((some ⟨[⟨1, 2⟩], false⟩ : Option FeatsFileStream) =
      some ⟨[⟨1, 2⟩], false⟩) ∧
    (FeatsFileStream.bad ⟨[⟨1, 2⟩], false⟩ = false) ∧
    loadFeatsFromFile (some ⟨[⟨1, 2⟩], false⟩) [] =
      (.ok (), [(⟨1, 2⟩ : PointFeature)]) :=
  ⟨rfl, rfl,
    (loadFeats_error_taxonomy (some ⟨[⟨1, 2⟩], false⟩) []).2.2
      ⟨[⟨1, 2⟩], false⟩ rfl rfl⟩

/-- C10: `loadFeatsFromFile` clears the destination vector before trying to
open the file: the outcome and the final vector contents are independent of
the vector's prior contents, and after a failed open the caller's vector is
left empty, not unchanged. -/
theorem loadFeats_clears_destination_first (file : Option FeatsFileStream)
    (prior : List PointFeature) :
    loadFeatsFromFile file prior = loadFeatsFromFile file [] ∧
    (file = none → (loadFeatsFromFile file prior).2 = []) := by
  rcases file with _ | s
  · exact ⟨rfl, fun _ => rfl⟩
  · refine ⟨rfl, ?_⟩
    intro hcontra
    simp at hcontra

theorem loadFeats_clears_destination_first_witness :
    ((none : Option FeatsFileStream) = none) ∧
    loadFeatsFromFile none [⟨3, 4⟩] = loadFeatsFromFile none [] ∧
    (loadFeatsFromFile none [(⟨3, 4⟩ : PointFeature)]).2 = [] :=
  ⟨rfl, (loadFeats_clears_destination_first none [⟨3, 4⟩]).1,
    (loadFeats_clears_destination_first none [⟨3, 4⟩]).2 rfl⟩

end AliceVision
